import Mathlib

set_option maxRecDepth 100000

/-!
Shallow embedding of the storagenode hashstore table header codec and
dispatcher (`storagenode/hashstore/tbl.go`) and of the orders FileStore
active-window accounting (`storagenode/orders`), with theorems settling the
specification claims about them.

Bytes are modelled as `Nat` values (< 256 where the Go code guarantees it),
byte buffers as `List Nat`.  The external 64-bit hash `xxh3.Hash` is taken as
a function parameter; an explicit `% 2 ^ 64` is applied wherever the Go code
holds its result in a `uint64`.
-/

namespace Hashstore

/-- Big-endian byte encoding of `v` into `n` bytes, least significant byte
last, exactly as `binary.BigEndian.PutUint32` / `PutUint64` lay out their
argument. -/
def beBytes : Nat → Nat → List Nat
  | 0, _ => []
  | n + 1, v => beBytes n (v / 256) ++ [v % 256]

/-- Big-endian byte decoding, exactly as `binary.BigEndian.Uint32` /
`Uint64` combine the bytes. -/
def beDecode (bs : List Nat) : Nat :=
  bs.foldl (fun a b => a * 256 + b) 0

/-- Constant `headerSize = 4096` from tbl.go. -/
def headerSize : Nat := 4096

/-- Constant `tbl_minLogSlots = 14` from tbl.go. -/
def tbl_minLogSlots : Nat := 14

/-- Constant `tbl_maxLogSlots = 56` from tbl.go. -/
def tbl_maxLogSlots : Nat := 56

/-- Constant `kind_HashTbl TableKind = 0` from tbl.go. -/
def kind_HashTbl : Nat := 0

/-- Constant `kind_MemTbl TableKind = 1` from tbl.go. -/
def kind_MemTbl : Nat := 1

/-- The magic marker "HTBL" as bytes. -/
def magicBytes : List Nat := [72, 84, 66, 76]

/-- Structure `TblHeader` from tbl.go.  `Created` is a `uint32`, `Kind` a byte
(`TableKind`), `LogSlots` a `uint64`; the width bounds appear as hypotheses
of the theorems. -/
structure TblHeader where
  Created : Nat
  HashKey : Bool
  Kind : Nat
  LogSlots : Nat
  deriving DecidableEq, Repr

/-- Function `writeBool` from tbl.go: encodes a boolean as the byte 1 or 0. -/
def writeBool (v : Bool) : Nat :=
  if v then 1 else 0

/-- The distinct error classes the table code produces (Go returns them as
wrapped formatted errors; only the class and its format arguments matter to
the spec). -/
inductive TblError where
  | formatError (magic : List Nat)
  | integrityError (stored computed : Nat)
  | unknownKind (kind : Nat)
  | invalidLogSlots (logSlots : Nat)
  deriving DecidableEq, Repr

/-- The first 4088 bytes of the page `WriteTblHeader` builds: magic, the
big-endian `Created`, the `writeBool`-encoded `HashKey`, the `Kind` byte,
the big-endian `LogSlots`, and the zero bytes the `var buf [headerSize]byte`
declaration leaves in place. -/
def tblHeaderBody (header : TblHeader) : List Nat :=
  magicBytes ++ (beBytes 4 header.Created ++ ([writeBool header.HashKey] ++
    ([header.Kind % 256] ++ (beBytes 8 header.LogSlots ++ List.replicate 4070 0))))

/-- Function `WriteTblHeader` from tbl.go, as the 4096-byte page it writes at file
offset 0: the body followed by the big-endian 64-bit `xxh3` checksum of the
body. -/
def WriteTblHeader (xxh3 : List Nat → Nat) (header : TblHeader) : List Nat :=
  tblHeaderBody header ++ beBytes 8 (xxh3 (tblHeaderBody header) % 2 ^ 64)

/-- Function `ReadTblHeader` from tbl.go, on the 4096-byte page read from offset 0:
checks the magic bytes, then the trailing checksum, then decodes the four
fields. -/
def ReadTblHeader (xxh3 : List Nat → Nat) (page : List Nat) :
    Except TblError TblHeader :=
  if page.take 4 ≠ magicBytes then
    .error (.formatError (page.take 4))
  else if beDecode ((page.drop (headerSize - 8)).take 8) ≠
      xxh3 (page.take (headerSize - 8)) % 2 ^ 64 then
    .error (.integrityError (beDecode ((page.drop (headerSize - 8)).take 8))
      (xxh3 (page.take (headerSize - 8)) % 2 ^ 64))
  else
    .ok
      { Created := beDecode ((page.drop 4).take 4)
        HashKey := page.getD 8 0 != 0
        Kind := page.getD 9 0
        LogSlots := beDecode ((page.drop 10).take 8) }

theorem beBytes_length (n v : Nat) : (beBytes n v).length = n := by
  induction n generalizing v with
  | zero => rfl
  | succ n ih => simp [beBytes, ih]

theorem beDecode_append_single (l : List Nat) (b : Nat) :
    beDecode (l ++ [b]) = beDecode l * 256 + b := by
  simp [beDecode, List.foldl_append]

theorem beDecode_beBytes_mod (n v : Nat) :
    beDecode (beBytes n v) = v % 256 ^ n := by
  induction n generalizing v with
  | zero =>
    simp [beBytes, beDecode, Nat.mod_one]
  | succ n ih =>
    rw [beBytes, beDecode_append_single, ih (v / 256)]
    rw [show (256 : Nat) ^ (n + 1) = 256 * 256 ^ n by ring, Nat.mod_mul]
    ring

theorem beDecode_beBytes (n v : Nat) (h : v < 256 ^ n) :
    beDecode (beBytes n v) = v := by
  rw [beDecode_beBytes_mod, Nat.mod_eq_of_lt h]

theorem drop_append_ge {α : Type _} (l₁ l₂ : List α) (n : Nat) (h : l₁.length ≤ n) :
    (l₁ ++ l₂).drop n = l₂.drop (n - l₁.length) := by
  rw [List.drop_append_eq_append_drop, List.drop_eq_nil_of_le h, List.nil_append]

theorem take_append_le {α : Type _} (l₁ l₂ : List α) (n : Nat) (h : n ≤ l₁.length) :
    (l₁ ++ l₂).take n = l₁.take n := by
  rw [List.take_append_eq_append_take, Nat.sub_eq_zero_of_le h, List.take_zero,
    List.append_nil]

theorem getD_replicate_zero (n j : Nat) : (List.replicate n 0).getD j 0 = 0 := by
  induction n generalizing j with
  | zero => rfl
  | succ n ih =>
    cases j with
    | zero => rfl
    | succ j => exact ih j

theorem tblHeaderBody_length (h : TblHeader) : (tblHeaderBody h).length = 4088 := by
  rw [tblHeaderBody, magicBytes]
  simp only [List.length_append, List.length_cons, List.length_nil, beBytes_length,
    List.length_replicate]

theorem tblHeaderBody_take4 (h : TblHeader) :
    (tblHeaderBody h).take 4 = magicBytes := by
  rw [tblHeaderBody, take_append_le _ _ 4 (by simp [magicBytes])]
  rfl

theorem tblHeaderBody_created (h : TblHeader) :
    ((tblHeaderBody h).drop 4).take 4 = beBytes 4 h.Created := by
  rw [tblHeaderBody, drop_append_ge _ _ 4 (by simp [magicBytes])]
  rw [show (4 - magicBytes.length = 0) from rfl, List.drop_zero]
  rw [take_append_le _ _ 4 (by simp [beBytes_length]),
    List.take_of_length_le (by simp [beBytes_length])]

theorem tblHeaderBody_logSlots (h : TblHeader) :
    ((tblHeaderBody h).drop 10).take 8 = beBytes 8 h.LogSlots := by
  rw [tblHeaderBody, drop_append_ge _ _ 10 (by simp [magicBytes])]
  rw [show (10 - magicBytes.length = 6) from rfl]
  rw [drop_append_ge _ _ 6 (by simp [beBytes_length])]
  rw [beBytes_length, show (6 - 4 = 2) from rfl]
  rw [drop_append_ge _ _ 2 (by simp)]
  rw [show ((2 : Nat) - [writeBool h.HashKey].length = 1) from rfl]
  rw [drop_append_ge _ _ 1 (by simp)]
  rw [show ((1 : Nat) - [h.Kind % 256].length = 0) from rfl, List.drop_zero]
  rw [take_append_le _ _ 8 (by simp [beBytes_length]),
    List.take_of_length_le (by simp [beBytes_length])]

theorem tblHeaderBody_getD8 (h : TblHeader) :
    (tblHeaderBody h).getD 8 0 = writeBool h.HashKey := by
  rw [tblHeaderBody]
  rw [List.getD_append_right _ _ _ _ (by simp [magicBytes])]
  rw [show (8 - magicBytes.length = 4) from rfl]
  rw [List.getD_append_right _ _ _ _ (by simp [beBytes_length])]
  rw [beBytes_length, show (4 - 4 = 0) from rfl]
  rfl

theorem tblHeaderBody_getD9 (h : TblHeader) :
    (tblHeaderBody h).getD 9 0 = h.Kind % 256 := by
  rw [tblHeaderBody]
  rw [List.getD_append_right _ _ _ _ (by simp [magicBytes])]
  rw [show (9 - magicBytes.length = 5) from rfl]
  rw [List.getD_append_right _ _ _ _ (by simp [beBytes_length])]
  rw [beBytes_length, show (5 - 4 = 1) from rfl]
  rfl

theorem tblHeaderBody_pad (h : TblHeader) (i : Nat) (hi : 18 ≤ i) :
    (tblHeaderBody h).getD i 0 = 0 := by
  rw [tblHeaderBody]
  rw [List.getD_append_right _ _ _ _ (by simp [magicBytes]; omega)]
  rw [List.getD_append_right _ _ _ _ (by simp [beBytes_length, magicBytes]; omega)]
  rw [List.getD_append_right _ _ _ _ (by simp [beBytes_length, magicBytes]; omega)]
  rw [List.getD_append_right _ _ _ _ (by simp [beBytes_length, magicBytes]; omega)]
  rw [List.getD_append_right _ _ _ _ (by simp [beBytes_length, magicBytes]; omega)]
  exact getD_replicate_zero _ _

theorem WriteTblHeader_length (xxh3 : List Nat → Nat) (h : TblHeader) :
    (WriteTblHeader xxh3 h).length = 4096 := by
  rw [WriteTblHeader]
  simp only [List.length_append, tblHeaderBody_length, beBytes_length]

theorem WriteTblHeader_take4 (xxh3 : List Nat → Nat) (h : TblHeader) :
    (WriteTblHeader xxh3 h).take 4 = magicBytes := by
  rw [WriteTblHeader, take_append_le _ _ 4 (by rw [tblHeaderBody_length]; norm_num),
    tblHeaderBody_take4]

theorem WriteTblHeader_take4088 (xxh3 : List Nat → Nat) (h : TblHeader) :
    (WriteTblHeader xxh3 h).take 4088 = tblHeaderBody h := by
  rw [WriteTblHeader]
  exact List.take_left' (tblHeaderBody_length h)

theorem WriteTblHeader_drop4088 (xxh3 : List Nat → Nat) (h : TblHeader) :
    (WriteTblHeader xxh3 h).drop 4088 =
      beBytes 8 (xxh3 (tblHeaderBody h) % 2 ^ 64) := by
  rw [WriteTblHeader]
  exact List.drop_left' (tblHeaderBody_length h)

theorem WriteTblHeader_stored (xxh3 : List Nat → Nat) (h : TblHeader) :
    beDecode (((WriteTblHeader xxh3 h).drop 4088).take 8) =
      xxh3 (tblHeaderBody h) % 2 ^ 64 := by
  rw [WriteTblHeader_drop4088, List.take_of_length_le (by simp [beBytes_length])]
  exact beDecode_beBytes 8 _ (by
    have : xxh3 (tblHeaderBody h) % 2 ^ 64 < 2 ^ 64 := Nat.mod_lt _ (by positivity)
    calc xxh3 (tblHeaderBody h) % 2 ^ 64 < 2 ^ 64 := this
    _ ≤ 256 ^ 8 := by norm_num)

theorem WriteTblHeader_drop_small (xxh3 : List Nat → Nat) (h : TblHeader) (n : Nat)
    (hn : n ≤ 4088) :
    (WriteTblHeader xxh3 h).drop n =
      (tblHeaderBody h).drop n ++ beBytes 8 (xxh3 (tblHeaderBody h) % 2 ^ 64) := by
  rw [WriteTblHeader, List.drop_append_eq_append_drop, tblHeaderBody_length,
    Nat.sub_eq_zero_of_le hn, List.drop_zero]

theorem WriteTblHeader_created (xxh3 : List Nat → Nat) (h : TblHeader) :
    beDecode (((WriteTblHeader xxh3 h).drop 4).take 4) = h.Created % 2 ^ 32 := by
  rw [WriteTblHeader_drop_small _ _ 4 (by norm_num)]
  rw [take_append_le _ _ 4 (by simp [tblHeaderBody_length])]
  rw [tblHeaderBody_created, beDecode_beBytes_mod]
  norm_num

theorem WriteTblHeader_logSlots (xxh3 : List Nat → Nat) (h : TblHeader) :
    beDecode (((WriteTblHeader xxh3 h).drop 10).take 8) = h.LogSlots % 2 ^ 64 := by
  rw [WriteTblHeader_drop_small _ _ 10 (by norm_num)]
  rw [take_append_le _ _ 8 (by simp [tblHeaderBody_length])]
  rw [tblHeaderBody_logSlots, beDecode_beBytes_mod]
  norm_num

theorem WriteTblHeader_getD8 (xxh3 : List Nat → Nat) (h : TblHeader) :
    (WriteTblHeader xxh3 h).getD 8 0 = writeBool h.HashKey := by
  rw [WriteTblHeader, List.getD_append _ _ _ _ (by rw [tblHeaderBody_length]; norm_num)]
  exact tblHeaderBody_getD8 h

theorem WriteTblHeader_getD9 (xxh3 : List Nat → Nat) (h : TblHeader) :
    (WriteTblHeader xxh3 h).getD 9 0 = h.Kind % 256 := by
  rw [WriteTblHeader, List.getD_append _ _ _ _ (by rw [tblHeaderBody_length]; norm_num)]
  exact tblHeaderBody_getD9 h

theorem WriteTblHeader_pad (xxh3 : List Nat → Nat) (h : TblHeader) (i : Nat)
    (hi : 18 ≤ i) (hi2 : i < 4088) :
    (WriteTblHeader xxh3 h).getD i 0 = 0 := by
  rw [WriteTblHeader, List.getD_append _ _ _ _ (by rw [tblHeaderBody_length]; omega)]
  exact tblHeaderBody_pad h i hi

/-- The successful result of `ReadTblHeader` on a page written by
`WriteTblHeader`: each field comes back reduced modulo its on-disk width,
and `HashKey` comes back as written. -/
theorem ReadTblHeader_WriteTblHeader_mod (xxh3 : List Nat → Nat) (h : TblHeader) :
    ReadTblHeader xxh3 (WriteTblHeader xxh3 h) =
      .ok
        { Created := h.Created % 2 ^ 32
          HashKey := h.HashKey
          Kind := h.Kind % 256
          LogSlots := h.LogSlots % 2 ^ 64 } := by
  rw [ReadTblHeader]
  rw [show headerSize - 8 = 4088 from rfl]
  rw [WriteTblHeader_take4, WriteTblHeader_take4088, WriteTblHeader_stored]
  rw [if_neg (by simp)]
  rw [if_neg (by simp)]
  rw [WriteTblHeader_created, WriteTblHeader_logSlots, WriteTblHeader_getD8,
    WriteTblHeader_getD9]
  have hb : (writeBool h.HashKey != 0) = h.HashKey := by
    cases h.HashKey <;> rfl
  rw [hb]

/-- Model of `fh.WriteAt(data, off)` positioned writes, on a byte-list
file: bytes `[off, off+len(data))` are replaced, the rest kept. -/
def writeAt (file : List Nat) (off : Nat) (data : List Nat) : List Nat :=
  file.take off ++ data ++ file.drop (off + data.length)

/-- Function `WriteTblHeader` including its `fh.WriteAt(buf[:], 0)` side effect: the
file with the header page written at offset 0. -/
def writeTblHeaderFile (xxh3 : List Nat → Nat) (file : List Nat)
    (header : TblHeader) : List Nat :=
  writeAt file 0 (WriteTblHeader xxh3 header)

/-- C1: for every header whose fields fit the on-disk widths (`Created` a
uint32, `HashKey` any bool, `Kind` a byte, `LogSlots` a uint64) and every
64-bit checksum function, writing the header with `WriteTblHeader` and
reading the same page back with `ReadTblHeader` succeeds and returns the
same header. -/
theorem header_roundtrip (xxh3 : List Nat → Nat) (h : TblHeader)
    (hc : h.Created < 2 ^ 32) (hk : h.Kind < 256) (hl : h.LogSlots < 2 ^ 64) :
    ReadTblHeader xxh3 (WriteTblHeader xxh3 h) = .ok h := by
  rw [ReadTblHeader_WriteTblHeader_mod, Nat.mod_eq_of_lt hc, Nat.mod_eq_of_lt hl,
    Nat.mod_eq_of_lt hk]

theorem header_roundtrip_witness :
    ReadTblHeader (fun bs => bs.foldl (fun a b => a + b) 0)
        (WriteTblHeader (fun bs => bs.foldl (fun a b => a + b) 0)
          { Created := 1234, HashKey := true, Kind := 1, LogSlots := 14 }) =
      .ok { Created := 1234, HashKey := true, Kind := 1, LogSlots := 14 } :=
  header_roundtrip _ _ (by decide) (by decide) (by decide)

/-- C2: `WriteTblHeader` produces exactly the fixed layout: a 4096-byte page
with the magic at offset 0, big-endian `Created` at offset 4, the 0/1
`HashKey` byte at offset 8, the `Kind` byte at offset 9, big-endian
`LogSlots` at offset 10, zeros on `[18, 4088)`, the 64-bit checksum of
bytes `[0, 4088)` at offset 4088, and the page is written at file
offset 0. -/
theorem write_header_layout (xxh3 : List Nat → Nat) (h : TblHeader)
    (file : List Nat) (hc : h.Created < 2 ^ 32) (hk : h.Kind < 256)
    (hl : h.LogSlots < 2 ^ 64) :
    (WriteTblHeader xxh3 h).length = 4096 ∧
    (WriteTblHeader xxh3 h).take 4 = magicBytes ∧
    beDecode (((WriteTblHeader xxh3 h).drop 4).take 4) = h.Created ∧
    (WriteTblHeader xxh3 h).getD 8 0 = (if h.HashKey then 1 else 0) ∧
    (WriteTblHeader xxh3 h).getD 9 0 = h.Kind ∧
    beDecode (((WriteTblHeader xxh3 h).drop 10).take 8) = h.LogSlots ∧
    (∀ i, 18 ≤ i → i < 4088 → (WriteTblHeader xxh3 h).getD i 0 = 0) ∧
    (WriteTblHeader xxh3 h).drop 4088 =
      beBytes 8 (xxh3 ((WriteTblHeader xxh3 h).take 4088) % 2 ^ 64) ∧
    writeTblHeaderFile xxh3 file h = WriteTblHeader xxh3 h ++ file.drop 4096 := by
  refine ⟨WriteTblHeader_length xxh3 h, WriteTblHeader_take4 xxh3 h, ?_, ?_, ?_, ?_,
    WriteTblHeader_pad xxh3 h, ?_, ?_⟩
  · rw [WriteTblHeader_created, Nat.mod_eq_of_lt hc]
  · rw [WriteTblHeader_getD8, writeBool]
  · rw [WriteTblHeader_getD9, Nat.mod_eq_of_lt hk]
  · rw [WriteTblHeader_logSlots, Nat.mod_eq_of_lt hl]
  · rw [WriteTblHeader_drop4088, WriteTblHeader_take4088]
  · rw [writeTblHeaderFile, writeAt, List.take_zero, List.nil_append,
      WriteTblHeader_length, Nat.zero_add]

theorem write_header_layout_witness :
    (WriteTblHeader (fun _ => 0) { Created := 7, HashKey := false, Kind := 0, LogSlots := 20 }).length = 4096 ∧
    (WriteTblHeader (fun _ => 0) { Created := 7, HashKey := false, Kind := 0, LogSlots := 20 }).take 4 = magicBytes ∧
    beDecode (((WriteTblHeader (fun _ => 0) { Created := 7, HashKey := false, Kind := 0, LogSlots := 20 }).drop 4).take 4) = 7 ∧
    (WriteTblHeader (fun _ => 0) { Created := 7, HashKey := false, Kind := 0, LogSlots := 20 }).getD 8 0 = (if False then 1 else 0) ∧
    (WriteTblHeader (fun _ => 0) { Created := 7, HashKey := false, Kind := 0, LogSlots := 20 }).getD 9 0 = 0 ∧
    beDecode (((WriteTblHeader (fun _ => 0) { Created := 7, HashKey := false, Kind := 0, LogSlots := 20 }).drop 10).take 8) = 20 ∧
    (∀ i, 18 ≤ i → i < 4088 →
      (WriteTblHeader (fun _ => 0) { Created := 7, HashKey := false, Kind := 0, LogSlots := 20 }).getD i 0 = 0) ∧
    (WriteTblHeader (fun _ => 0) { Created := 7, HashKey := false, Kind := 0, LogSlots := 20 }).drop 4088 =
      beBytes 8 ((fun (_ : List Nat) => 0)
        ((WriteTblHeader (fun _ => 0) { Created := 7, HashKey := false, Kind := 0, LogSlots := 20 }).take 4088) % 2 ^ 64) ∧
    writeTblHeaderFile (fun _ => 0) [1, 2, 3] { Created := 7, HashKey := false, Kind := 0, LogSlots := 20 } =
      WriteTblHeader (fun _ => 0) { Created := 7, HashKey := false, Kind := 0, LogSlots := 20 } ++ [1, 2, 3].drop 4096 := by
  have := write_header_layout (fun _ => 0)
    { Created := 7, HashKey := false, Kind := 0, LogSlots := 20 } [1, 2, 3]
    (by decide) (by decide) (by decide)
  simpa using this

/-- C3: on a 4096-byte page, `ReadTblHeader` fails with a format error
whenever the first four bytes are not the magic; with the magic intact but
the trailing checksum different from the one recomputed over `[0, 4088)` it
fails with an integrity error (the magic check takes precedence); and with
both checks passing it returns the four decoded fields. -/
theorem read_header_checks (xxh3 : List Nat → Nat) (page : List Nat)
    (_hlen : page.length = 4096) :
    (page.take 4 ≠ magicBytes →
      ReadTblHeader xxh3 page = .error (.formatError (page.take 4))) ∧
    (page.take 4 = magicBytes →
      beDecode ((page.drop 4088).take 8) ≠ xxh3 (page.take 4088) % 2 ^ 64 →
      ReadTblHeader xxh3 page =
        .error (.integrityError (beDecode ((page.drop 4088).take 8))
          (xxh3 (page.take 4088) % 2 ^ 64))) ∧
    (page.take 4 = magicBytes →
      beDecode ((page.drop 4088).take 8) = xxh3 (page.take 4088) % 2 ^ 64 →
      ReadTblHeader xxh3 page =
        .ok
          { Created := beDecode ((page.drop 4).take 4)
            HashKey := page.getD 8 0 != 0
            Kind := page.getD 9 0
            LogSlots := beDecode ((page.drop 10).take 8) }) := by
  refine ⟨fun hm => ?_, fun hm hs => ?_, fun hm hs => ?_⟩
  · rw [ReadTblHeader, if_pos hm]
  · rw [ReadTblHeader, show headerSize - 8 = 4088 from rfl, if_neg (by simp [hm]),
      if_pos hs]
  · rw [ReadTblHeader, show headerSize - 8 = 4088 from rfl, if_neg (by simp [hm]),
      if_neg (by simp [hs])]

theorem read_header_checks_witness :
    ReadTblHeader (fun _ => 0) (List.replicate 4096 0) =
      .error (.formatError ((List.replicate 4096 0).take 4)) :=
  (read_header_checks (fun _ => 0) (List.replicate 4096 0)
    (by rw [List.length_replicate])).1 (by decide)

/-- C9: `ReadTblHeader` does no semantic validation beyond magic and
checksum: any page passing both checks decodes successfully, whatever
`LogSlots` or kind byte it carries, and the `HashKey` byte decodes to
`true` for every nonzero value, not only for 1. -/
theorem read_header_no_validation (xxh3 : List Nat → Nat) (page : List Nat)
    (hm : page.take 4 = magicBytes)
    (hs : beDecode ((page.drop 4088).take 8) = xxh3 (page.take 4088) % 2 ^ 64) :
    ∃ hdr, ReadTblHeader xxh3 page = .ok hdr ∧
      hdr.Created = beDecode ((page.drop 4).take 4) ∧
      hdr.HashKey = (page.getD 8 0 != 0) ∧
      (page.getD 8 0 ≠ 0 → hdr.HashKey = true) ∧
      hdr.Kind = page.getD 9 0 ∧
      hdr.LogSlots = beDecode ((page.drop 10).take 8) := by
  refine ⟨{ Created := beDecode ((page.drop 4).take 4)
            HashKey := page.getD 8 0 != 0
            Kind := page.getD 9 0
            LogSlots := beDecode ((page.drop 10).take 8) }, ?_, rfl, rfl, ?_, rfl, rfl⟩
  · rw [ReadTblHeader, show headerSize - 8 = 4088 from rfl, if_neg (by simp [hm]),
      if_neg (by simp [hs])]
  · intro hnz
    simpa [bne_iff_ne] using hnz

/-- A page with `LogSlots = 100` (outside `[14, 56]`), kind byte 7 (not a
defined kind) and hashKey byte 2 (neither 0 nor 1) still reads back
successfully, with `HashKey = true`. -/
theorem read_header_no_validation_witness :
    ∃ hdr,
      ReadTblHeader (fun _ => 0)
          (magicBytes ++ (beBytes 4 0 ++ ([2] ++ ([7] ++ (beBytes 8 100 ++
            List.replicate 4070 0)))) ++ beBytes 8 0) =
        .ok hdr ∧
      hdr.HashKey = true ∧ hdr.Kind = 7 ∧ hdr.LogSlots = 100 := by
  obtain ⟨hdr, hok, _, hkey, _, hkind, hls⟩ :=
    read_header_no_validation (fun _ => 0)
      (magicBytes ++ (beBytes 4 0 ++ ([2] ++ ([7] ++ (beBytes 8 100 ++
        List.replicate 4070 0)))) ++ beBytes 8 0) (by decide) (by decide)
  refine ⟨hdr, hok, ?_, ?_, ?_⟩
  · rw [hkey]
    decide
  · rw [hkind]
    decide
  · rw [hls]
    decide

/-- Corrupt a page by flipping bit `k` of the byte at offset `i`. -/
def flipBit (page : List Nat) (i k : Nat) : List Nat :=
  page.set i (page.getD i 0 ^^^ 2 ^ k)

theorem take_set_of_le (l : List Nat) (i v n : Nat) (h : n ≤ i) :
    (l.set i v).take n = l.take n := by
  apply List.ext_getElem?
  intro m
  rw [List.getElem?_take, List.getElem?_take]
  by_cases hm : m < n
  · simp only [if_pos hm]
    exact List.getElem?_set_ne (by omega)
  · simp [hm]

theorem getD_set_self (l : List Nat) (i v : Nat) (h : i < l.length) :
    (l.set i v).getD i 0 = v := by
  simp [List.getD_eq_getElem?_getD, List.getElem?_set_self, h]

theorem getD_take_lt (l : List Nat) (n i d : Nat) (h : i < n) :
    (l.take n).getD i d = l.getD i d := by
  simp [List.getD_eq_getElem?_getD, List.getElem?_take, h]

theorem xor_pow_ne (b k : Nat) : b ^^^ 2 ^ k ≠ b := by
  intro hb
  have h2 : b ^^^ (b ^^^ 2 ^ k) = b ^^^ b := by rw [hb]
  rw [← Nat.xor_assoc, Nat.xor_self, Nat.zero_xor] at h2
  have := Nat.two_pow_pos k
  omega

/-- C8: flipping any bit of a written header page is caught: a flip inside
the magic bytes gives a format error; a flip elsewhere in the body whose
recomputed checksum no longer matches (i.e. excluding coincidental
collisions of the checksum function) gives an integrity error; and a flip
inside the stored checksum field that changes the stored value gives an
integrity error. -/
theorem corrupted_header_detected (xxh3 : List Nat → Nat) (h : TblHeader)
    (i k : Nat) (_hk8 : k < 8) :
    (i < 4 →
      ∃ m, ReadTblHeader xxh3 (flipBit (WriteTblHeader xxh3 h) i k) =
        .error (.formatError m)) ∧
    (4 ≤ i → i < 4088 →
      xxh3 ((flipBit (WriteTblHeader xxh3 h) i k).take 4088) % 2 ^ 64 ≠
        xxh3 ((WriteTblHeader xxh3 h).take 4088) % 2 ^ 64 →
      ∃ s c, ReadTblHeader xxh3 (flipBit (WriteTblHeader xxh3 h) i k) =
        .error (.integrityError s c)) ∧
    (4088 ≤ i → i < 4096 →
      beDecode (((flipBit (WriteTblHeader xxh3 h) i k).drop 4088).take 8) ≠
        beDecode (((WriteTblHeader xxh3 h).drop 4088).take 8) →
      ∃ s c, ReadTblHeader xxh3 (flipBit (WriteTblHeader xxh3 h) i k) =
        .error (.integrityError s c)) := by
  refine ⟨fun hi4 => ?_, fun hi4 hi4088 hcc => ?_, fun hi4088 hi4096 hsc => ?_⟩
  · have hne : (flipBit (WriteTblHeader xxh3 h) i k).take 4 ≠ magicBytes := by
      intro heq
      have e1 : ((flipBit (WriteTblHeader xxh3 h) i k).take 4).getD i 0 =
          magicBytes.getD i 0 := by rw [heq]
      rw [getD_take_lt _ _ _ _ hi4, flipBit,
        getD_set_self _ _ _ (by rw [WriteTblHeader_length]; omega)] at e1
      have e2 : ((WriteTblHeader xxh3 h).take 4).getD i 0 = magicBytes.getD i 0 := by
        rw [WriteTblHeader_take4]
      rw [getD_take_lt _ _ _ _ hi4] at e2
      rw [← e2] at e1
      exact xor_pow_ne _ _ e1
    exact ⟨_, by rw [ReadTblHeader, if_pos hne]⟩
  · have ht4 : (flipBit (WriteTblHeader xxh3 h) i k).take 4 = magicBytes := by
      rw [flipBit, take_set_of_le _ _ _ 4 hi4, WriteTblHeader_take4]
    have hdrop : (flipBit (WriteTblHeader xxh3 h) i k).drop 4088 =
        (WriteTblHeader xxh3 h).drop 4088 :=
      List.drop_set_of_lt _ _ hi4088
    have hcond : beDecode (((flipBit (WriteTblHeader xxh3 h) i k).drop 4088).take 8) ≠
        xxh3 ((flipBit (WriteTblHeader xxh3 h) i k).take 4088) % 2 ^ 64 := by
      rw [hdrop, WriteTblHeader_stored]
      rw [WriteTblHeader_take4088] at hcc
      exact Ne.symm hcc
    exact ⟨beDecode (((flipBit (WriteTblHeader xxh3 h) i k).drop 4088).take 8),
      xxh3 ((flipBit (WriteTblHeader xxh3 h) i k).take 4088) % 2 ^ 64,
      by rw [ReadTblHeader, show headerSize - 8 = 4088 from rfl,
        if_neg (by simp [ht4]), if_pos hcond]⟩
  · have ht4 : (flipBit (WriteTblHeader xxh3 h) i k).take 4 = magicBytes := by
      rw [flipBit, take_set_of_le _ _ _ 4 (by omega), WriteTblHeader_take4]
    have htake : (flipBit (WriteTblHeader xxh3 h) i k).take 4088 =
        (WriteTblHeader xxh3 h).take 4088 := by
      rw [flipBit, take_set_of_le _ _ _ 4088 hi4088]
    have hcond : beDecode (((flipBit (WriteTblHeader xxh3 h) i k).drop 4088).take 8) ≠
        xxh3 ((flipBit (WriteTblHeader xxh3 h) i k).take 4088) % 2 ^ 64 := by
      rw [htake, WriteTblHeader_take4088, ← WriteTblHeader_stored xxh3 h]
      exact hsc
    exact ⟨beDecode (((flipBit (WriteTblHeader xxh3 h) i k).drop 4088).take 8),
      xxh3 ((flipBit (WriteTblHeader xxh3 h) i k).take 4088) % 2 ^ 64,
      by rw [ReadTblHeader, show headerSize - 8 = 4088 from rfl,
        if_neg (by simp [ht4]), if_pos hcond]⟩

theorem corrupted_header_detected_witness :
    ∃ m, ReadTblHeader (fun _ => 0)
        (flipBit (WriteTblHeader (fun _ => 0)
          { Created := 5, HashKey := true, Kind := 0, LogSlots := 14 }) 0 0) =
      .error (.formatError m) :=
  (corrupted_header_detected (fun _ => 0)
    { Created := 5, HashKey := true, Kind := 0, LogSlots := 14 } 0 0
    (by decide)).1 (by decide)

/-- A file as a function from byte offset to byte value (used where the
created file would be too large to materialise as a list). -/
def File : Type := Nat → Nat

/-- Positioned write on a function-modelled file. -/
def writeAtF (file : File) (off : Nat) (data : List Nat) : File :=
  fun i => if off ≤ i ∧ i < off + data.length then data.getD (i - off) 0 else file i

/-- Zero a byte range of a function-modelled file. -/
def zeroRange (file : File) (off len : Nat) : File :=
  fun i => if off ≤ i ∧ i < off + len then 0 else file i

/-- Modelled from the spec: `CreateHashtbl` (the disk-resident create
routine) is not among the sources; per spec §4.2, creation validates
`logSlots ∈ [14, 56]`, writes a fresh header of its kind and
zero-initializes every slot (`2 ^ logSlots` records of `recordSize` bytes
after the header).  The header's `HashKey` choice is not fixed by the spec
and is irrelevant to the claims. -/
def CreateHashtbl (xxh3 : List Nat → Nat) (recordSize : Nat) (file : File)
    (logSlots created : Nat) : Except TblError Unit × File :=
  if logSlots < tbl_minLogSlots ∨ tbl_maxLogSlots < logSlots then
    (.error (.invalidLogSlots logSlots), file)
  else
    (.ok (), zeroRange
      (writeAtF file 0 (WriteTblHeader xxh3
        { Created := created, HashKey := true, Kind := kind_HashTbl,
          LogSlots := logSlots }))
      headerSize (2 ^ logSlots * recordSize))

/-- Modelled from the spec: `CreateMemtbl` (the memory-resident create
routine) is not among the sources; same contract as `CreateHashtbl` with
the memory-resident kind. -/
def CreateMemtbl (xxh3 : List Nat → Nat) (recordSize : Nat) (file : File)
    (logSlots created : Nat) : Except TblError Unit × File :=
  if logSlots < tbl_minLogSlots ∨ tbl_maxLogSlots < logSlots then
    (.error (.invalidLogSlots logSlots), file)
  else
    (.ok (), zeroRange
      (writeAtF file 0 (WriteTblHeader xxh3
        { Created := created, HashKey := true, Kind := kind_MemTbl,
          LogSlots := logSlots }))
      headerSize (2 ^ logSlots * recordSize))

/-- Function `CreateTable` from tbl.go: dispatches on the requested kind before
anything touches the file; an unrecognized kind is rejected with an
unknown-kind error.  The create routines are spec-modelled (see
`CreateHashtbl` / `CreateMemtbl`). -/
def CreateTable (xxh3 : List Nat → Nat) (recordSize : Nat) (file : File)
    (logSlots created kind : Nat) : Except TblError Unit × File :=
  match kind with
  | 0 => CreateHashtbl xxh3 recordSize file logSlots created
  | 1 => CreateMemtbl xxh3 recordSize file logSlots created
  | _ => (.error (.unknownKind kind), file)

/-- The `switch header.Kind` of `OpenTable`, as a dispatch on the decoded
kind byte. -/
def openTableKind {α : Type} (openHashtbl openMemtbl : List Nat → Except TblError α)
    (page : List Nat) : Nat → Except TblError α
  | 0 => openHashtbl page
  | 1 => openMemtbl page
  | k + 2 => .error (.unknownKind (k + 2))

/-- Function `OpenTable` from tbl.go: reads the header, then dispatches on the
decoded kind.  The variant open routines (`OpenHashtbl` / `OpenMemtbl`,
not among the sources) are taken as parameters. -/
def OpenTable {α : Type} (xxh3 : List Nat → Nat)
    (openHashtbl openMemtbl : List Nat → Except TblError α)
    (page : List Nat) : Except TblError α :=
  match ReadTblHeader xxh3 page with
  | .error e => .error e
  | .ok header => openTableKind openHashtbl openMemtbl page header.Kind

/-- Resolver `table_DefaultKind` from tbl.go: the default table kind, computed once
at process start from the `STORJ_HASHSTORE_TABLE_DEFAULT_KIND` environment
value; the `panic` on an unrecognized value (a fatal startup error) is
modelled as `none`. -/
def table_DefaultKind (tbl : String) : Option Nat :=
  if tbl = "" ∨ tbl = "hashtbl" ∨ tbl = "hash" then some kind_HashTbl
  else if tbl = "memtbl" ∨ tbl = "mem" then some kind_MemTbl
  else none

/-- C4: with a recognized kind, table creation fails with a validation
error for every `logSlots` below 14 or above 56 and succeeds at the
boundary values 14 and 56. -/
theorem create_table_logslots_bounds (xxh3 : List Nat → Nat)
    (recordSize : Nat) (file : File) (logSlots created kind : Nat)
    (hkind : kind = kind_HashTbl ∨ kind = kind_MemTbl) :
    ((logSlots < 14 ∨ 56 < logSlots) →
      (CreateTable xxh3 recordSize file logSlots created kind).1 =
        .error (.invalidLogSlots logSlots)) ∧
    ((logSlots = 14 ∨ logSlots = 56) →
      (CreateTable xxh3 recordSize file logSlots created kind).1 = .ok ()) := by
  constructor
  · intro hout
    have hcond : logSlots < tbl_minLogSlots ∨ tbl_maxLogSlots < logSlots := by
      simp only [tbl_minLogSlots, tbl_maxLogSlots]
      omega
    rcases hkind with hk | hk <;> subst hk
    · show (CreateHashtbl xxh3 recordSize file logSlots created).1 = _
      rw [CreateHashtbl, if_pos hcond]
    · show (CreateMemtbl xxh3 recordSize file logSlots created).1 = _
      rw [CreateMemtbl, if_pos hcond]
  · intro hin
    rcases hkind with hk | hk <;> rcases hin with h | h <;> subst hk <;> subst h <;> rfl

theorem create_table_logslots_bounds_witness :
    ((CreateTable (fun _ => 0) 64 (fun _ => 0) 13 0 0).1 =
      .error (.invalidLogSlots 13)) ∧
    ((CreateTable (fun _ => 0) 64 (fun _ => 0) 14 0 0).1 = .ok ()) ∧
    ((CreateTable (fun _ => 0) 64 (fun _ => 0) 56 0 1).1 = .ok ()) ∧
    ((CreateTable (fun _ => 0) 64 (fun _ => 0) 57 0 1).1 =
      .error (.invalidLogSlots 57)) :=
  ⟨(create_table_logslots_bounds (fun _ => 0) 64 (fun _ => 0) 13 0 0
      (Or.inl rfl)).1 (Or.inl (by decide)),
   (create_table_logslots_bounds (fun _ => 0) 64 (fun _ => 0) 14 0 0
      (Or.inl rfl)).2 (Or.inl rfl),
   (create_table_logslots_bounds (fun _ => 0) 64 (fun _ => 0) 56 0 1
      (Or.inr rfl)).2 (Or.inr rfl),
   (create_table_logslots_bounds (fun _ => 0) 64 (fun _ => 0) 57 0 1
      (Or.inr rfl)).1 (Or.inr (by decide))⟩

/-- C6: `CreateTable` with an undefined kind returns an unknown-kind error
before anything is written: the file comes back unchanged. -/
theorem create_table_unknown_kind (xxh3 : List Nat → Nat) (recordSize : Nat)
    (file : File) (logSlots created kind : Nat)
    (h0 : kind ≠ kind_HashTbl) (h1 : kind ≠ kind_MemTbl) :
    CreateTable xxh3 recordSize file logSlots created kind =
      (.error (.unknownKind kind), file) := by
  match kind with
  | 0 => exact absurd rfl h0
  | 1 => exact absurd rfl h1
  | n + 2 => rfl

theorem create_table_unknown_kind_witness :
    CreateTable (fun _ => 0) 64 (fun _ => 0) 14 0 2 =
      (.error (.unknownKind 2), fun _ => 0) :=
  create_table_unknown_kind (fun _ => 0) 64 (fun _ => 0) 14 0 2
    (by decide) (by decide)

/-- C5: after a successful header read, `OpenTable` delegates to the
disk-resident open routine for kind 0 and to the memory-resident one for
kind 1, and returns an unknown-kind error for every other kind byte. -/
theorem open_table_dispatch {α : Type} (xxh3 : List Nat → Nat)
    (openHashtbl openMemtbl : List Nat → Except TblError α)
    (page : List Nat) (header : TblHeader)
    (hread : ReadTblHeader xxh3 page = .ok header) :
    (header.Kind = kind_HashTbl →
      OpenTable xxh3 openHashtbl openMemtbl page = openHashtbl page) ∧
    (header.Kind = kind_MemTbl →
      OpenTable xxh3 openHashtbl openMemtbl page = openMemtbl page) ∧
    (2 ≤ header.Kind → header.Kind ≤ 255 →
      OpenTable xxh3 openHashtbl openMemtbl page =
        .error (.unknownKind header.Kind)) := by
  have e1 : OpenTable xxh3 openHashtbl openMemtbl page =
      openTableKind openHashtbl openMemtbl page header.Kind := by
    rw [OpenTable, hread]
  refine ⟨fun hk => ?_, fun hk => ?_, fun hk2 hk255 => ?_⟩
  · rw [e1, hk]
    rfl
  · rw [e1, hk]
    rfl
  · obtain ⟨n, hn⟩ : ∃ n, header.Kind = n + 2 := ⟨header.Kind - 2, by omega⟩
    rw [e1, hn]
    rfl

theorem open_table_dispatch_witness :
    OpenTable (fun _ => 0) (fun _ => .ok 10) (fun _ => .ok 20)
        (WriteTblHeader (fun _ => 0)
          { Created := 0, HashKey := true, Kind := 2, LogSlots := 14 }) =
      .error (.unknownKind 2) :=
  (open_table_dispatch (fun _ => 0) (fun _ => .ok 10) (fun _ => .ok 20)
    (WriteTblHeader (fun _ => 0)
      { Created := 0, HashKey := true, Kind := 2, LogSlots := 14 })
    { Created := 0, HashKey := true, Kind := 2, LogSlots := 14 }
    (by rfl)).2.2 (by decide) (by decide)

/-- C7: the process-wide default table kind maps "", "hashtbl" and "hash"
to the disk-resident kind, "memtbl" and "mem" to the memory-resident kind,
and aborts startup (modelled as `none`) on every other string. -/
theorem default_kind_policy :
    (table_DefaultKind "" = some kind_HashTbl ∧
     table_DefaultKind "hashtbl" = some kind_HashTbl ∧
     table_DefaultKind "hash" = some kind_HashTbl ∧
     table_DefaultKind "memtbl" = some kind_MemTbl ∧
     table_DefaultKind "mem" = some kind_MemTbl) ∧
    ∀ s : String, s ≠ "" → s ≠ "hashtbl" → s ≠ "hash" → s ≠ "memtbl" →
      s ≠ "mem" → table_DefaultKind s = none := by
  refine ⟨⟨rfl, rfl, rfl, rfl, rfl⟩, fun s h1 h2 h3 h4 h5 => ?_⟩
  rw [table_DefaultKind, if_neg (by simp [h1, h2, h3]), if_neg (by simp [h4, h5])]

theorem default_kind_policy_witness :
    table_DefaultKind "lsm" = none :=
  default_kind_policy.2 "lsm" (by decide) (by decide) (by decide) (by decide)
    (by decide)

end Hashstore

namespace Orders

/-- Structure `activeWindow` from the orders FileStore: a satellite and an
hour-truncated creation timestamp (`date.TruncateToHourInNano` is applied
by the callers before the map is touched, so windows enter the model
already truncated). -/
structure activeWindow where
  satelliteID : Nat
  timestamp : Int
  deriving DecidableEq, Repr

/-- The `active map[activeWindow]int` field, as an association list. -/
abbrev ActiveMap : Type := List (activeWindow × Int)

/-- Go map read: the value stored for `w`, or the zero value 0 when `w` is
absent. -/
def mapGet (m : ActiveMap) (w : activeWindow) : Int :=
  match m.find? (fun p => p.1 == w) with
  | some p => p.2
  | none => 0

/-- Go map write: replace the entry for `w`, or add one. -/
def mapSet : ActiveMap → activeWindow → Int → ActiveMap
  | [], w, v => [(w, v)]
  | p :: rest, w, v => if p.1 = w then (w, v) :: rest else p :: mapSet rest w v

/-- Go `delete(m, w)`. -/
def mapDelete (m : ActiveMap) (w : activeWindow) : ActiveMap :=
  m.filter (fun p => !(p.1 == w))

/-- Method `enqueueStartedLocked`: increments `store.active[window]`. -/
def enqueueStartedLocked (m : ActiveMap) (w : activeWindow) : ActiveMap :=
  mapSet m w (mapGet m w + 1)

/-- Method `enqueueFinishedLocked`: decrements `store.active[window]`, then deletes the entry
when the decremented count is `<= 0`. -/
def enqueueFinishedLocked (m : ActiveMap) (w : activeWindow) : ActiveMap :=
  if mapGet (mapSet m w (mapGet m w - 1)) w ≤ 0 then
    mapDelete (mapSet m w (mapGet m w - 1)) w
  else
    mapSet m w (mapGet m w - 1)

/-- Method `hasActiveEnqueue`: reports whether `store.active[window] > 0`. -/
def hasActiveEnqueue (m : ActiveMap) (w : activeWindow) : Bool :=
  decide (mapGet m w > 0)

/-- One call into the active-window accounting. -/
inductive EnqueueOp where
  | started (w : activeWindow)
  | finished (w : activeWindow)
  deriving DecidableEq, Repr

def applyOp (m : ActiveMap) : EnqueueOp → ActiveMap
  | .started w => enqueueStartedLocked m w
  | .finished w => enqueueFinishedLocked m w

/-- The map reached from the empty `active` map after a call sequence. -/
def runOps (ops : List EnqueueOp) : ActiveMap :=
  ops.foldl applyOp []

def startsCount (ops : List EnqueueOp) (w : activeWindow) : Nat :=
  ops.count (.started w)

def finishesCount (ops : List EnqueueOp) (w : activeWindow) : Nat :=
  ops.count (.finished w)

/-- Every `finished` matches an earlier `started` for its window (how the
FileStore invokes the pair: `enqueueFinishedLocked` only runs as the
deferred counterpart of `enqueueStartedLocked`). -/
def balanced (ops : List EnqueueOp) : Prop :=
  ∀ n w, finishesCount (ops.take n) w ≤ startsCount (ops.take n) w

theorem mapGet_nil (w : activeWindow) : mapGet [] w = 0 := rfl

theorem mapGet_cons_self (p : activeWindow × Int) (m : ActiveMap)
    (w : activeWindow) (h : p.1 = w) : mapGet (p :: m) w = p.2 := by
  rw [mapGet, List.find?_cons_of_pos _ (by simp [h])]

theorem mapGet_cons_ne (p : activeWindow × Int) (m : ActiveMap)
    (w : activeWindow) (h : p.1 ≠ w) : mapGet (p :: m) w = mapGet m w := by
  rw [mapGet, List.find?_cons_of_neg _ (by simp [h]), mapGet]

theorem mapGet_mapSet_self (m : ActiveMap) (w : activeWindow) (v : Int) :
    mapGet (mapSet m w v) w = v := by
  induction m with
  | nil => exact mapGet_cons_self _ _ _ rfl
  | cons p rest ih =>
    by_cases hp : p.1 = w
    · rw [mapSet, if_pos hp, mapGet_cons_self _ _ _ rfl]
    · rw [mapSet, if_neg hp, mapGet_cons_ne _ _ _ hp]
      exact ih

theorem mapGet_mapSet_ne (m : ActiveMap) (w w₂ : activeWindow) (v : Int)
    (h : w₂ ≠ w) : mapGet (mapSet m w v) w₂ = mapGet m w₂ := by
  induction m with
  | nil =>
    rw [mapSet, mapGet_cons_ne _ _ _ (Ne.symm h)]
  | cons p rest ih =>
    by_cases hp : p.1 = w
    · rw [mapSet, if_pos hp, mapGet_cons_ne _ _ _ (Ne.symm h),
        mapGet_cons_ne _ _ _ (by rw [hp]; exact (Ne.symm h))]
    · by_cases hp2 : p.1 = w₂
      · rw [mapSet, if_neg hp, mapGet_cons_self _ _ _ hp2, mapGet_cons_self _ _ _ hp2]
      · rw [mapSet, if_neg hp, mapGet_cons_ne _ _ _ hp2, mapGet_cons_ne _ _ _ hp2]
        exact ih

theorem mem_mapSet (m : ActiveMap) (w : activeWindow) (v : Int)
    (p : activeWindow × Int) (hp : p ∈ mapSet m w v) : p = (w, v) ∨ p ∈ m := by
  induction m with
  | nil =>
    rw [mapSet] at hp
    simp at hp
    exact Or.inl hp
  | cons q rest ih =>
    by_cases hq : q.1 = w
    · rw [mapSet, if_pos hq] at hp
      rcases List.mem_cons.mp hp with h | h
      · exact Or.inl h
      · exact Or.inr (List.mem_cons_of_mem _ h)
    · rw [mapSet, if_neg hq] at hp
      rcases List.mem_cons.mp hp with h | h
      · exact Or.inr (h ▸ List.mem_cons_self _ _)
      · rcases ih h with h2 | h2
        · exact Or.inl h2
        · exact Or.inr (List.mem_cons_of_mem _ h2)

theorem mem_mapDelete (m : ActiveMap) (w : activeWindow)
    (p : activeWindow × Int) (hp : p ∈ mapDelete m w) : p ∈ m ∧ p.1 ≠ w := by
  rw [mapDelete] at hp
  have := List.mem_filter.mp hp
  refine ⟨this.1, ?_⟩
  have h2 := this.2
  simpa using h2

theorem mapGet_mapDelete_self (m : ActiveMap) (w : activeWindow) :
    mapGet (mapDelete m w) w = 0 := by
  induction m with
  | nil => rfl
  | cons p rest ih =>
    by_cases hp : p.1 = w
    · rw [mapDelete, List.filter_cons_of_neg (by simp [hp])]
      exact ih
    · rw [mapDelete, List.filter_cons_of_pos (by simp [hp]),
        mapGet_cons_ne _ _ _ hp]
      exact ih

theorem mapGet_mapDelete_ne (m : ActiveMap) (w w₂ : activeWindow)
    (h : w₂ ≠ w) : mapGet (mapDelete m w) w₂ = mapGet m w₂ := by
  induction m with
  | nil => rfl
  | cons p rest ih =>
    by_cases hp : p.1 = w
    · rw [mapDelete, List.filter_cons_of_neg (by simp [hp]),
        mapGet_cons_ne _ _ _ (by rw [hp]; exact (Ne.symm h))]
      exact ih
    · by_cases hp2 : p.1 = w₂
      · rw [mapDelete, List.filter_cons_of_pos (by simp [hp]),
          mapGet_cons_self _ _ _ hp2, mapGet_cons_self _ _ _ hp2]
      · rw [mapDelete, List.filter_cons_of_pos (by simp [hp]),
          mapGet_cons_ne _ _ _ hp2, mapGet_cons_ne _ _ _ hp2]
        exact ih

theorem mapGet_nonneg (m : ActiveMap) (hm : ∀ p ∈ m, 0 < p.2)
    (w : activeWindow) : 0 ≤ mapGet m w := by
  rw [mapGet]
  cases hf : m.find? (fun p => p.1 == w) with
  | none => exact le_refl 0
  | some p =>
    have hp : p ∈ m := List.mem_of_find?_eq_some hf
    exact le_of_lt (hm p hp)

theorem applyOp_pos (m : ActiveMap) (op : EnqueueOp)
    (hm : ∀ p ∈ m, 0 < p.2) : ∀ p ∈ applyOp m op, 0 < p.2 := by
  cases op with
  | started w =>
    intro p hp
    rcases mem_mapSet _ _ _ _ hp with h | h
    · subst h
      have := mapGet_nonneg m hm w
      simp only
      omega
    · exact hm p h
  | finished w =>
    intro p hp
    rw [applyOp, enqueueFinishedLocked] at hp
    by_cases hc : mapGet (mapSet m w (mapGet m w - 1)) w ≤ 0
    · rw [if_pos hc] at hp
      obtain ⟨hp2, hpne⟩ := mem_mapDelete _ _ _ hp
      rcases mem_mapSet _ _ _ _ hp2 with h | h
      · exact absurd (by rw [h]) hpne
      · exact hm p h
    · rw [if_neg hc] at hp
      rcases mem_mapSet _ _ _ _ hp with h | h
      · subst h
        rw [mapGet_mapSet_self] at hc
        simp only
        omega
      · exact hm p h

theorem foldl_applyOp_pos (ops : List EnqueueOp) (m : ActiveMap)
    (hm : ∀ p ∈ m, 0 < p.2) : ∀ p ∈ ops.foldl applyOp m, 0 < p.2 := by
  induction ops generalizing m with
  | nil => exact hm
  | cons op rest ih =>
    rw [List.foldl_cons]
    exact ih (applyOp m op) (applyOp_pos m op hm)

theorem runOps_pos (ops : List EnqueueOp) : ∀ p ∈ runOps ops, 0 < p.2 :=
  foldl_applyOp_pos ops [] (by intro p hp; cases hp)

theorem runOps_append_single (ops : List EnqueueOp) (op : EnqueueOp) :
    runOps (ops ++ [op]) = applyOp (runOps ops) op := by
  rw [runOps, List.foldl_append, List.foldl_cons, List.foldl_nil]
  rfl

theorem count_append_single (ops : List EnqueueOp) (op target : EnqueueOp) :
    (ops ++ [op]).count target =
      ops.count target + if op = target then 1 else 0 := by
  rw [List.count_append]
  by_cases h : op = target
  · subst h
    simp [List.count_cons]
  · simp [List.count_cons, h]

theorem startsCount_append_single (ops : List EnqueueOp) (op : EnqueueOp)
    (w : activeWindow) :
    startsCount (ops ++ [op]) w =
      startsCount ops w + if op = .started w then 1 else 0 := by
  rw [startsCount, count_append_single, startsCount]

theorem finishesCount_append_single (ops : List EnqueueOp) (op : EnqueueOp)
    (w : activeWindow) :
    finishesCount (ops ++ [op]) w =
      finishesCount ops w + if op = .finished w then 1 else 0 := by
  rw [finishesCount, count_append_single, finishesCount]

theorem balanced_of_append (ops : List EnqueueOp) (op : EnqueueOp)
    (h : balanced (ops ++ [op])) : balanced ops := by
  intro n w
  by_cases hn : n ≤ ops.length
  · have h2 := h n w
    rw [Hashstore.take_append_le _ _ _ hn] at h2
    exact h2
  · rw [List.take_of_length_le (by omega)]
    have h2 := h ops.length w
    rw [Hashstore.take_append_le _ _ _ (le_refl _), List.take_length] at h2
    exact h2

theorem balanced_last (ops : List EnqueueOp) (w : activeWindow)
    (h : balanced (ops ++ [.finished w])) :
    finishesCount ops w + 1 ≤ startsCount ops w := by
  have h2 := h (ops.length + 1) w
  rw [List.take_of_length_le (by simp)] at h2
  rw [startsCount_append_single, finishesCount_append_single,
    if_pos (show EnqueueOp.finished w = EnqueueOp.finished w from rfl),
    if_neg (show ¬(EnqueueOp.finished w = EnqueueOp.started w) from by simp)] at h2
  simpa using h2

theorem mapGet_runOps (ops : List EnqueueOp) :
    balanced ops → ∀ w, mapGet (runOps ops) w =
      (startsCount ops w : Int) - (finishesCount ops w : Int) := by
  induction ops using List.reverseRecOn with
  | nil =>
    intro _ w
    simp [runOps, mapGet, startsCount, finishesCount]
  | append_singleton ops op ih =>
    intro hb w
    have hb2 := balanced_of_append ops op hb
    rw [runOps_append_single, startsCount_append_single,
      finishesCount_append_single]
    cases op with
    | started w₂ =>
      rw [if_neg (show ¬(EnqueueOp.started w₂ = EnqueueOp.finished w) from by simp),
        Nat.add_zero]
      by_cases hw : w = w₂
      · subst hw
        rw [if_pos (show EnqueueOp.started w = EnqueueOp.started w from rfl)]
        rw [show applyOp (runOps ops) (.started w) =
          mapSet (runOps ops) w (mapGet (runOps ops) w + 1) from rfl]
        rw [mapGet_mapSet_self, ih hb2 w]
        push_cast
        ring
      · rw [if_neg (show ¬(EnqueueOp.started w₂ = EnqueueOp.started w) from
          by simp [Ne.symm hw]), Nat.add_zero]
        rw [show applyOp (runOps ops) (.started w₂) =
          mapSet (runOps ops) w₂ (mapGet (runOps ops) w₂ + 1) from rfl]
        rw [mapGet_mapSet_ne _ _ _ _ hw]
        exact ih hb2 w
    | finished w₂ =>
      rw [if_neg (show ¬(EnqueueOp.finished w₂ = EnqueueOp.started w) from by simp),
        Nat.add_zero]
      by_cases hw : w = w₂
      · subst hw
        rw [if_pos (show EnqueueOp.finished w = EnqueueOp.finished w from rfl)]
        have hlast := balanced_last ops w hb
        have hget := ih hb2 w
        rw [show applyOp (runOps ops) (.finished w) =
          enqueueFinishedLocked (runOps ops) w from rfl]
        rw [enqueueFinishedLocked]
        by_cases hc :
            mapGet (mapSet (runOps ops) w (mapGet (runOps ops) w - 1)) w ≤ 0
        · rw [if_pos hc, mapGet_mapDelete_self]
          rw [mapGet_mapSet_self, hget] at hc
          omega
        · rw [if_neg hc, mapGet_mapSet_self, hget]
          push_cast
          ring
      · rw [if_neg (show ¬(EnqueueOp.finished w₂ = EnqueueOp.finished w) from
          by simp [Ne.symm hw]), Nat.add_zero]
        rw [show applyOp (runOps ops) (.finished w₂) =
          enqueueFinishedLocked (runOps ops) w₂ from rfl]
        rw [enqueueFinishedLocked]
        by_cases hc :
            mapGet (mapSet (runOps ops) w₂ (mapGet (runOps ops) w₂ - 1)) w₂ ≤ 0
        · rw [if_pos hc, mapGet_mapDelete_ne _ _ _ hw,
            mapGet_mapSet_ne _ _ _ _ hw]
          exact ih hb2 w
        · rw [if_neg hc, mapGet_mapSet_ne _ _ _ _ hw]
          exact ih hb2 w

/-- C10: the active-window map only ever holds strictly positive counts:
from the empty map, after any call sequence every stored count is positive;
`enqueueFinishedLocked` removes the entry exactly when the decremented
count reaches zero or below (and stores the decremented count otherwise);
and for sequences in which every `finished` matches an earlier `started`,
`hasActiveEnqueue` answers true exactly when a window has more starts than
finishes in flight. -/
theorem active_window_invariant (ops : List EnqueueOp) (w : activeWindow)
    (m : ActiveMap) :
    (∀ p ∈ runOps ops, 0 < p.2) ∧
    ((mapGet m w - 1 ≤ 0 → ∀ p ∈ enqueueFinishedLocked m w, p.1 ≠ w) ∧
     (0 < mapGet m w - 1 →
       mapGet (enqueueFinishedLocked m w) w = mapGet m w - 1)) ∧
    (balanced ops →
      (hasActiveEnqueue (runOps ops) w = true ↔
        finishesCount ops w < startsCount ops w)) := by
  refine ⟨runOps_pos ops, ⟨?_, ?_⟩, ?_⟩
  · intro hle p hp
    rw [enqueueFinishedLocked,
      if_pos (by rw [mapGet_mapSet_self]; exact hle)] at hp
    exact (mem_mapDelete _ _ _ hp).2
  · intro hgt
    rw [enqueueFinishedLocked,
      if_neg (by rw [mapGet_mapSet_self]; omega), mapGet_mapSet_self]
  · intro hb
    rw [hasActiveEnqueue, mapGet_runOps ops hb w, decide_eq_true_eq]
    omega

theorem active_window_invariant_witness :
    mapGet (enqueueFinishedLocked [((⟨1, 5⟩ : activeWindow), 2)] ⟨1, 5⟩)
        ⟨1, 5⟩ =
      mapGet [((⟨1, 5⟩ : activeWindow), 2)] ⟨1, 5⟩ - 1 :=
  ((active_window_invariant [] ⟨1, 5⟩ [(⟨1, 5⟩, 2)]).2.1).2 (by decide)

end Orders

